import Mathlib

/-!
Verification of the opendesk OCM toolkit scripts.

The development shallowly embeds the three Python scripts of the
repository (`analyze_kro_helm_oci_mapping.py`, `kro_helm_oci_summary.py`,
`update_component_constructors.py`).  Strings are modelled as Lean
`String`/`List Char`; the handful of regular expressions used by the code
are embedded as deterministic scanners (each of those regexes is
backtracking-free, so a greedy scanner is exact).  CPython peculiarities
that matter are modelled explicitly: `$` also matching just before a final
newline, float thresholds, dict last-one-wins construction.  All
definitions are executable.
-/

/-! ## Character classes and small string helpers (List Char level) -/

/-- Python `\s` on ASCII input: space, tab, newline, carriage return,
vertical tab, form feed.  Also the set stripped by `str.strip`. -/
def isPyWs (c : Char) : Bool :=
  c == ' ' || c == '\t' || c == '\n' || c == '\r' || c == '\x0b' || c == '\x0c'

/-- The character class `[0-9a-zA-Z-]` of the semver pattern. -/
def isSemChar (c : Char) : Bool :=
  c.isAlphanum || c == '-'

/-- The class kept by the sanitizer: `[.0-9a-zA-Z-]`. -/
def isSanOk (c : Char) : Bool :=
  c == '.' || c.isAlphanum || c == '-'

/-- Split a character list at every occurrence of `sep`, like Python
`str.split(sep)` for a one-character separator: `splitOnChar '.' []`
is `[[]]` and empty fields are kept. -/
def splitOnChar (sep : Char) : List Char → List (List Char)
  | [] => [[]]
  | c :: t =>
    if c == sep then
      [] :: splitOnChar sep t
    else
      match splitOnChar sep t with
      | h :: r => (c :: h) :: r
      | [] => [[c]]

/-- Split at the first occurrence of `sep`: returns the part before it and,
when `sep` occurs, the part after it. -/
def splitAtFirst (sep : Char) : List Char → List Char × Option (List Char)
  | [] => ([], none)
  | c :: t =>
    if c == sep then ([], some t)
    else
      let p := splitAtFirst sep t
      (c :: p.1, p.2)

/-! ## The semantic-version pattern of `_validate_semantic_version`

The source regex (update_component_constructors.py, line 371) is

  `^[v]?(0|[1-9]\d*)(?:\.(0|[1-9]\d*))?(?:\.(0|[1-9]\d*))?`
  `(?:-((?:0|[1-9]\d*|\d*[a-zA-Z-][0-9a-zA-Z-]*)`
  `(?:\.(?:0|[1-9]\d*|\d*[a-zA-Z-][0-9a-zA-Z-]*))*))?`
  `(?:\+([0-9a-zA-Z-]+(?:\.[0-9a-zA-Z-]+)*))?$`

checked with `re.match`.  No character can belong to two adjacent pieces
(`+` and `-` are outside the numeric core, `.` is outside every group
member), so the regex is equivalent to splitting at the first `+`, then at
the first `-`, then at the dots, as done below. -/

/-- The regex piece `0|[1-9]\d*`: a numeral without a leading zero. -/
def numericNoLead : List Char → Bool
  | [] => false
  | c :: t =>
    if c == '0' then t.isEmpty
    else ('1' ≤ c && c ≤ '9') && t.all Char.isDigit

/-- A prerelease identifier: `0|[1-9]\d*|\d*[a-zA-Z-][0-9a-zA-Z-]*`.
The third alternative is exactly a nonempty `[0-9a-zA-Z-]` word containing
at least one non-digit (the first non-digit plays the `[a-zA-Z-]` role). -/
def preIdOk (l : List Char) : Bool :=
  !l.isEmpty && l.all isSemChar && (numericNoLead l || l.any (fun c => !c.isDigit))

/-- A build identifier: `[0-9a-zA-Z-]+`. -/
def buildIdOk (l : List Char) : Bool :=
  !l.isEmpty && l.all isSemChar

/-- The core `[v]?(0|[1-9]\d*)(\.(0|[1-9]\d*))?(\.(0|[1-9]\d*))?`. -/
def semverCoreOk (l : List Char) : Bool :=
  let body := match l with
    | 'v' :: t => t
    | t => t
  let comps := splitOnChar '.' body
  comps.length ≤ 3 && comps.all numericNoLead

/-- The whole pattern, anchored at both ends, ignoring the `$`-before-final-
newline rule (handled by `matchesSemverPy`). -/
def semverNoNl (l : List Char) : Bool :=
  let pb := splitAtFirst '+' l
  let cp := splitAtFirst '-' pb.1
  semverCoreOk cp.1 &&
    (match cp.2 with
     | none => true
     | some p => (splitOnChar '.' p).all preIdOk) &&
    (match pb.2 with
     | none => true
     | some b => (splitOnChar '.' b).all buildIdOk)

/-- `re.match(semver_pattern, s)` as a Boolean: CPython's `$` also matches
just before a newline that ends the string. -/
def matchesSemverPy (l : List Char) : Bool :=
  if l.getLast? == some '\n' then semverNoNl l.dropLast else semverNoNl l

/-! ## `_validate_semantic_version` -/

/-- One step of `re.sub(r'[^.0-9a-zA-Z-]', '-', version)`: the class is a
single character, so the substitution is a character map. -/
def sanChar (c : Char) : Char :=
  if isSanOk c then c else '-'

/-- The sanitization pass of `_validate_semantic_version`. -/
def sanitizeVersion (s : String) : String :=
  ⟨s.data.map sanChar⟩

/-- `_validate_semantic_version` (update_component_constructors.py,
lines 353-378). -/
def validate_semantic_version (version : String) : String :=
  let sanitized := sanitizeVersion version
  if matchesSemverPy sanitized.data then sanitized
  else ("0.0.0+") ++ sanitized

example : validate_semantic_version ("1.2.3-beta") = ("1.2.3-beta") := by decide
example : validate_semantic_version ("not a semver!!") = ("0.0.0+not-a-semver--") := by
  decide

/-! ## The template-expression extractors

Both scripts recognize the two shapes with `re.search`:

  Shape A: `\$\{\s*([a-zA-Z][a-zA-Z0-9]*)\s*\.metadata\.name\s*\}`
  Shape B: `\$\{\s*([a-zA-Z][a-zA-Z0-9]*)\s*\.status\.additional\.\?registry\s*\}`

Adjacent pieces of either pattern draw from disjoint character classes
(whitespace / alpha / alnum / a literal starting with `.`), so matching at
a fixed position is deterministic and `re.search` is exactly the
leftmost-position scan implemented below. -/

/-- Consume an exact literal from the front of a list, returning the rest. -/
def consumeLit : List Char → List Char → Option (List Char)
  | [], l => some l
  | _ :: _, [] => none
  | c :: cs, d :: ds => if d == c then consumeLit cs ds else none

/-- The fixed tail of Shape A. -/
def litChartRef : List Char := (".metadata.name").data

/-- The fixed tail of Shape B. -/
def litRegistry : List Char := (".status.additional.?registry").data

/-- Matching of `\s*<lit>\s*\}` right after the identifier: skip further
alphanumerics is impossible here, so consume whitespace, the literal tail,
whitespace, and require a closing brace. -/
def tailOk (lit : List Char) (rest : List Char) : Bool :=
  match consumeLit lit ((rest.dropWhile Char.isAlphanum).dropWhile isPyWs) with
  | some rest2 => (rest2.dropWhile isPyWs).head? == some '}'
  | none => false

/-- Matching of `\s*([a-zA-Z][a-zA-Z0-9]*)\s*<lit>\s*\}` right after a
`${` has been consumed; returns the captured identifier. -/
def matchAfterBrace (lit : List Char) (cs : List Char) : Option (List Char) :=
  match cs.dropWhile isPyWs with
  | [] => none
  | c :: rest =>
    if c.isAlpha then
      if tailOk lit rest then some (c :: rest.takeWhile Char.isAlphanum) else none
    else none

/-- Attempt to match the whole pattern at the current position: the
pattern opens with the two fixed characters `${`. -/
def matchExprAt (lit : List Char) : List Char → Option (List Char)
  | a :: b :: rest => if a == '$' && b == '{' then matchAfterBrace lit rest else none
  | _ => none

/-- `re.search`: try every start position from the left. -/
def searchExpr (lit : List Char) : List Char → Option (List Char)
  | [] => none
  | c :: t =>
    match matchExprAt lit (c :: t) with
    | some ident => some ident
    | none => searchExpr lit t

/-- A loaded YAML value as passed to the extractor entry points: a Python
string, or a value of any other runtime type. -/
inductive PyVal where
  | str (s : String)
  | nonstr
deriving DecidableEq

/-- `KROAnalyzer.parse_template_expression`
(analyze_kro_helm_oci_mapping.py, lines 134-149): Shape A with an
`isinstance(expression, str)` guard. -/
def parse_template_expression (expression : PyVal) : Option String :=
  match expression with
  | .str s => (searchExpr litChartRef s.data).map List.asString
  | .nonstr => none

/-- `KROAnalyzer.parse_oci_url_template`
(analyze_kro_helm_oci_mapping.py, lines 151-167): Shape B with an
`isinstance(url, str)` guard. -/
def parse_oci_url_template (url : PyVal) : Option String :=
  match url with
  | .str s => (searchExpr litRegistry s.data).map List.asString
  | .nonstr => none

/-- The nested `parse_helm_to_oci` of `kro_helm_oci_summary.py`
(lines 42-45): the same Shape A regex, applied directly to a string. -/
def parse_helm_to_oci (chart_ref : String) : Option String :=
  (searchExpr litChartRef chart_ref.data).map List.asString

/-- The nested `parse_oci_to_resource` of `kro_helm_oci_summary.py`
(lines 47-50): the same Shape B regex, applied directly to a string. -/
def parse_oci_to_resource (url : String) : Option String :=
  (searchExpr litRegistry url.data).map List.asString

example : parse_helm_to_oci ("${ opendeskhomeOCIRepository.metadata.name }")
    = some ("opendeskhomeOCIRepository") := by decide
example : parse_oci_to_resource
      ("oci://${ homeResourceChart.status.additional.?registry }/${ homeResourceChart.status.additional.?repository }")
    = some ("homeResourceChart") := by decide
example : parse_helm_to_oci ("plain-name") = none := by decide

/-! ## Specification-side description of the shapes -/

/-- The identifier grammar `[a-zA-Z][a-zA-Z0-9]*`. -/
def identOk (l : List Char) : Bool :=
  match l with
  | [] => false
  | c :: t => c.isAlpha && t.all Char.isAlphanum

/-- The first character of the literal tail must be neither whitespace nor
alphanumeric (true of the `.` heading both shape tails). -/
def litHeadOk (lit : List Char) : Bool :=
  match lit with
  | [] => false
  | c :: _ => !isPyWs c && !c.isAlphanum

/-- `shapeAt lit s pre X`: immediately after the prefix `pre`, the string
`s` carries a full occurrence of the template-expression shape
`${ <ws> X <ws> <lit> <ws> }` with identifier `X`. -/
def shapeAt (lit s pre X : List Char) : Prop :=
  ∃ ws1 ws2 ws3 suf : List Char,
    ws1.all isPyWs = true ∧ ws2.all isPyWs = true ∧ ws3.all isPyWs = true ∧
    identOk X = true ∧
    s = pre ++ '$' :: '{' :: (ws1 ++ X ++ ws2 ++ lit ++ ws3 ++ '}' :: suf)

/-! ## The KRO document model (claims C7 and C9)

`kro_helm_oci_summary.analyze_kro_mappings` (and equivalently
`KROAnalyzer.map_helm_to_oci`) walks a tree of mappings / sequences /
string scalars produced by `yaml.safe_load`.  The model below keeps the
tree shape; every scalar the scripts actually read is a string (a
non-string scalar in one of those positions would crash `re.search` in
CPython, outside the behaviour the claims describe), so scalars are
modelled as strings. -/

inductive YVal where
  | s (v : String)
  | m (fields : List (String × YVal))
  | l (items : List YVal)

/-- First binding of a key in a mapping's field list (keys are unique in a
parsed YAML mapping, so this is plain dict lookup). -/
def lookupField : List (String × YVal) → String → Option YVal
  | [], _ => none
  | (k', v) :: t, k => if k' == k then some v else lookupField t k

/-- `d.get(k)`; on a non-mapping the scripts' `.get` chains would fail, the
total model returns nothing. -/
def ymGet (y : YVal) (k : String) : Option YVal :=
  match y with
  | .m fields => lookupField fields k
  | _ => none

/-- `d.get(k, {})`. -/
def ymGetD (y : YVal) (k : String) : YVal :=
  match ymGet y k with
  | some v => v
  | none => .m []

/-- `d.get(k, '')` for a string field; a non-string value in such a field
is outside the modelled behaviour and reads as absent. -/
def ymGetStr (y : YVal) (k : String) : String :=
  match ymGet y k with
  | some (.s v) => v
  | _ => ""

/-- Strict bracket-access path `d[k1][k2]...`, `none` when any step fails
(the scripts catch the corresponding KeyError/TypeError). -/
def ymPath (y : YVal) : List String → Option YVal
  | [] => some y
  | k :: ks =>
    match ymGet y k with
    | some v => ymPath v ks
    | none => none

/-- Python truthiness of a loaded YAML value. -/
def pyTruthy : YVal → Bool
  | .s v => !(v == "")
  | .m fs => !fs.isEmpty
  | .l xs => !xs.isEmpty

/-- `template.get('kind') == 'HelmRelease'` under the classifier's
`'template' in resource and isinstance(resource['template'], dict)` guard
(kro_helm_oci_summary.py, lines 27-31). -/
def isHelmRelease (r : YVal) : Bool :=
  match ymGet r "template" with
  | some (.m tf) =>
    match lookupField tf "kind" with
    | some (.s k) => k == "HelmRelease"
    | _ => false
  | _ => false

/-- Same classifier for `OCIRepository` (lines 32-33). -/
def isOCIRepository (r : YVal) : Bool :=
  match ymGet r "template" with
  | some (.m tf) =>
    match lookupField tf "kind" with
    | some (.s k) => k == "OCIRepository"
    | _ => false
  | _ => false

/-- Same classifier for `Resource`, additionally requiring the OCM
apiVersion (lines 34-35). -/
def isOCMResource (r : YVal) : Bool :=
  match ymGet r "template" with
  | some (.m tf) =>
    (match lookupField tf "kind" with
     | some (.s k) => k == "Resource"
     | _ => false) &&
    (match lookupField tf "apiVersion" with
     | some (.s a) => a == "delivery.ocm.software/v1alpha1"
     | _ => false)
  | _ => false

/-- The classifier output lists, in document order. -/
def helm_releases (doc : List YVal) : List YVal := doc.filter isHelmRelease

/-- OCIRepository resources in document order. -/
def oci_repositories (doc : List YVal) : List YVal := doc.filter isOCIRepository

/-- OCM Resource resources in document order. -/
def resource_definitions (doc : List YVal) : List YVal := doc.filter isOCMResource

/-- `repo['id']` when present (after the `'id' in repo` guard); ids are
strings in the modelled documents. -/
def idOf (r : YVal) : Option String :=
  match ymGet r "id" with
  | some (.s v) => some v
  | _ => none

/-- One step of the dict comprehension `{repo['id']: repo for repo in rs
if 'id' in repo}`: bind the id, overwriting an earlier binding. -/
def idTableStep (acc : String → Option YVal) (r : YVal) : String → Option YVal :=
  match idOf r with
  | some k => fun q => if q == k then some r else acc q
  | none => acc

/-- The whole dict comprehension, as a lookup function: a later binding of
the same key overwrites an earlier one. -/
def buildIdTable (rs : List YVal) : String → Option YVal :=
  rs.foldl idTableStep (fun _ => none)

/-- `oci_by_id` (kro_helm_oci_summary.py, line 38). -/
def oci_by_id (doc : List YVal) (k : String) : Option YVal :=
  buildIdTable (oci_repositories doc) k

/-- `resource_by_id` (line 39). -/
def resource_by_id (doc : List YVal) (k : String) : Option YVal :=
  buildIdTable (resource_definitions doc) k

/-- `hr.get('template', {}).get('spec', {}).get('chartRef', {}).get('name', '')`
(line 71). -/
def chart_ref_of (hr : YVal) : String :=
  ymGetStr (ymGetD (ymGetD (ymGetD hr "template") "spec") "chartRef") "name"

/-- `oci_repo.get('template', {}).get('spec', {}).get('url', '')` (line 76). -/
def url_of (repo : YVal) : String :=
  ymGetStr (ymGetD (ymGetD repo "template") "spec") "url"

/-- `extract_resource_reference_info` (kro_helm_oci_summary.py, lines
52-64): best-effort read of `template.spec.resource.byReference`,
returning `(referencePath, resourceName)`. -/
def extract_resource_reference_info (resource : YVal) :
    Option String × Option String :=
  match ymPath resource ["template", "spec", "resource", "byReference"] with
  | none => (none, none)
  | some rspec =>
    let rp :=
      match ymGet rspec "referencePath" with
      | some v =>
        if pyTruthy v then
          match v with
          | .l (x :: _) =>
            (match ymGet x "name" with
             | some (.s n) => some n
             | _ => none)
          | _ => none
        else none
      | none => none
    let rn :=
      match ymGet rspec "resource" with
      | some rr =>
        (match ymGet rr "name" with
         | some (.s n) => some n
         | _ => none)
      | none => none
    (rp, rn)

/-- One row of the summary's `complete_mappings` list: a fully-resolved or
partial chain. -/
structure ChainRec where
  hr : YVal
  oci : YVal
  res : Option YVal
  refInfo : Option (Option String × Option String)

/-- The per-HelmRelease body of the resolver loop
(kro_helm_oci_summary.py, lines 70-86): `some` = a (complete or partial)
chain appended to `complete_mappings`, `none` = the HelmRelease goes to
`unmapped_helm`. -/
def chain_of (doc : List YVal) (hr : YVal) : Option ChainRec :=
  match parse_helm_to_oci (chart_ref_of hr) with
  | none => none
  | some v =>
    match oci_by_id doc v with
    | none => none
    | some repo =>
      match parse_oci_to_resource (url_of repo) with
      | some w =>
        (match resource_by_id doc w with
         | some res => some ⟨hr, repo, some res, some (extract_resource_reference_info res)⟩
         | none => some ⟨hr, repo, none, none⟩)
      | none => some ⟨hr, repo, none, none⟩

/-- The resolver loop, accumulating in order. -/
def analyzeLoop (doc : List YVal) : List YVal → List ChainRec × List YVal
  | [] => ([], [])
  | hr :: t =>
    let rest := analyzeLoop doc t
    match chain_of doc hr with
    | some c => (c :: rest.1, rest.2)
    | none => (rest.1, hr :: rest.2)

/-- `analyze_kro_mappings` (kro_helm_oci_summary.py, lines 13-88),
restricted to its two interesting outputs `(complete_mappings,
unmapped_helm)`; the three trailing counts are the lengths of the
classifier lists. -/
def analyze_kro_mappings (doc : List YVal) : List ChainRec × List YVal :=
  analyzeLoop doc (helm_releases doc)

/-! ## Concrete documents used as witnesses -/

/-- A HelmRelease whose chartRef names `fooOCIRepository`. -/
def hrFoo : YVal :=
  .m [("id", .s ("fooHelmRelease")),
      ("template", .m [("kind", .s ("HelmRelease")),
        ("spec", .m [("chartRef",
          .m [("name", .s ("${ fooOCIRepository.metadata.name }"))])])])]

/-- An OCIRepository with id `fooOCIRepository` whose url names
`barResource`. -/
def ociFoo : YVal :=
  .m [("id", .s ("fooOCIRepository")),
      ("template", .m [("kind", .s ("OCIRepository")),
        ("spec", .m [("url",
          .s ("oci://${ barResource.status.additional.?registry }/${ barResource.status.additional.?repository }"))])])]

/-- An OCM Resource with id `barResource`. -/
def resBar : YVal :=
  .m [("id", .s ("barResource")),
      ("template", .m [("kind", .s ("Resource")),
        ("apiVersion", .s ("delivery.ocm.software/v1alpha1")),
        ("spec", .m [("resource", .m [("byReference",
          .m [("referencePath", .l [.m [("name", .s ("collabora"))]]),
              ("resource", .m [("name", .s ("helm-chart-foo"))])])])])])]

/-- The spec's end-to-end document: one full chain. -/
def docC7 : List YVal := [hrFoo, ociFoo, resBar]

/-- A HelmRelease whose chartRef names the duplicated id. -/
def hrDup : YVal :=
  .m [("id", .s ("dupHelmRelease")),
      ("template", .m [("kind", .s ("HelmRelease")),
        ("spec", .m [("chartRef",
          .m [("name", .s ("${ dupOCIRepository.metadata.name }"))])])])]

/-- First OCIRepository carrying the duplicated id. -/
def ociDup1 : YVal :=
  .m [("id", .s ("dupOCIRepository")),
      ("template", .m [("kind", .s ("OCIRepository")),
        ("spec", .m [("url", .s ("oci://plain-url-one"))])])]

/-- Second OCIRepository carrying the duplicated id. -/
def ociDup2 : YVal :=
  .m [("id", .s ("dupOCIRepository")),
      ("template", .m [("kind", .s ("OCIRepository")),
        ("spec", .m [("url", .s ("oci://other-url-two"))])])]

/-- A document with two OCIRepositories sharing one id. -/
def docC9 : List YVal := [hrDup, ociDup1, ociDup2]

/-! ## The deployment correlator (claims C1 and C5)

Embedding of `ImageMappingAnalyzer.find_correlations` and its helper
predicates (update_component_constructors.py, lines 144-323). -/

/-- Substring containment (Python `in` on strings): does `pat` occur
contiguously in the list? -/
def strInfix (pat : List Char) : List Char → Bool
  | [] => (consumeLit pat []).isSome
  | c :: t => (consumeLit pat (c :: t)).isSome || strInfix pat t

/-- Python `str.lower` on the ASCII strings these fields hold. -/
def pyLower (s : String) : String :=
  ⟨s.data.map Char.toLower⟩

/-- `s.replace(pat, '')`: delete every occurrence, scanning left to right
without overlap.  Fuel is the string length (every step consumes at least
one character for a non-empty pattern). -/
def replAllGo (pat : List Char) : Nat → List Char → List Char
  | _, [] => []
  | 0, l => l
  | fuel + 1, c :: t =>
    match consumeLit pat (c :: t) with
    | some rest => replAllGo pat fuel rest
    | none => c :: replAllGo pat fuel t

/-- `s.replace(pat, '')` at the `String` level. -/
def pyRemoveAll (s pat : String) : String :=
  ⟨replAllGo pat.data s.data.length s.data⟩

/-- The class `[\d\.]` of the chart-suffix regexes. -/
def isDigitDot (c : Char) : Bool :=
  c.isDigit || c == '.'

/-- The class `[a-f0-9]` (lowercase hex). -/
def isHexLower (c : Char) : Bool :=
  c.isDigit || ('a' ≤ c && c ≤ 'f')

/-- After a `-`, does the rest of the line match `[\d\.]+_[a-f0-9]+`
completely?  (`[\d\.]` and `_` and `[a-f0-9]` are disjoint classes, so the
regex `-[\d\.]+_[a-f0-9]+$` is deterministic.) -/
def validTail1 (t : List Char) : Bool :=
  let ds := t.takeWhile isDigitDot
  match t.dropWhile isDigitDot with
  | c :: hs => c == '_' && !ds.isEmpty && !hs.isEmpty && hs.all isHexLower
  | [] => false

/-- After a `-`, does the rest of the line match `[\d\.]+` completely?
(for `-[\d\.]+$`). -/
def validTail2 (t : List Char) : Bool :=
  !t.isEmpty && t.all isDigitDot

/-- Replace the leftmost `-`-led suffix accepted by `valid` with nothing
(the suffix runs to the end, so everything from the `-` is dropped). -/
def applySuffixSub (valid : List Char → Bool) : List Char → List Char
  | [] => []
  | c :: t => if c == '-' && valid t then [] else c :: applySuffixSub valid t

/-- `re.sub(r'-<cls>$', '', s)`: CPython's `$` also matches just before a
newline ending the string, and no class of either suffix pattern admits
`\n`, so a trailing newline is held back and re-appended. -/
def pySubSuffix (valid : List Char → Bool) (l : List Char) : List Char :=
  match l.getLast? with
  | some lastC =>
    if lastC == '\n' then applySuffixSub valid l.dropLast ++ ['\n']
    else applySuffixSub valid l
  | none => []

/-- `_extract_chart_name_from_deployed` (lines 144-159). -/
def extract_chart_name_from_deployed (helm_chart : String) : String :=
  if helm_chart == "" then ""
  else ⟨pySubSuffix validTail2 (pySubSuffix validTail1 helm_chart.data)⟩

/-- `_extract_chart_name_from_resource` (lines 161-173). -/
def extract_chart_name_from_resource (resource_name : String) : String :=
  if resource_name == "" then ""
  else if (consumeLit ("helm-chart-").data resource_name.data).isSome then
    ⟨resource_name.data.drop 11⟩
  else resource_name

/-- `_normalize_app_instance_name` (lines 175-191). -/
def normalize_app_instance_name (app_instance : String) : String :=
  if app_instance == "" then ""
  else
    let normalized := pyRemoveAll (pyRemoveAll app_instance ("opendesk-")) ("-opendesk")
    if normalized == "collabora-online" then ("collabora")
    else if normalized == "clamav-simple" then ("clamav")
    else if normalized == "matrix-user-verification-service" then
      ("matrix-user-verification")
    else normalized

/-- The static alias table of `_are_chart_names_similar` (lines 246-263),
in source order. -/
def chart_name_variations : List (String × List String) :=
  [("cert-manager", ["cert-manager-cainjector", "cert-manager-webhook"]),
   ("collabora-online", ["collabora"]),
   ("clamav-simple", ["clamav"]),
   ("ingress-nginx", ["nginx"]),
   ("opendesk-jitsi", ["jitsi"]),
   ("opendesk-nextcloud", ["nextcloud", "aio", "exporter"]),
   ("matrix-neoboard-widget", ["neoboard"]),
   ("matrix-neochoice-widget", ["neochoice"]),
   ("matrix-neodatefix-widget", ["neodatefix-widget"]),
   ("matrix-neodatefix-bot", ["neodatefix-bot"]),
   ("opendesk-element", ["element"]),
   ("opendesk-synapse", ["synapse"]),
   ("opendesk-synapse-web", ["synapse-web"]),
   ("opendesk-well-known", ["well-known"]),
   ("opendesk-static-files", ["static-files"]),
   ("opendesk-matrix-user-verification-service", ["matrix-user-verification"])]

/-- `_are_chart_names_similar` (lines 243-277): the alias table, then a
substring fallback for names longer than three characters. -/
def are_chart_names_similar (name1 name2 : String) : Bool :=
  (chart_name_variations.any (fun bv =>
    (name1 == bv.1 && bv.2.contains name2) ||
    (name2 == bv.1 && bv.2.contains name1) ||
    (bv.2.contains name1 && bv.2.contains name2))) ||
  (name1.length > 3 && name2.length > 3 &&
    (strInfix name1.data name2.data || strInfix name2.data name1.data))

/-- The static table of `_matches_component_pattern` (lines 281-298), in
source order. -/
def component_mappings : List (String × String) :=
  [("ums", "nubus"), ("intercom", "nubus"), ("keycloak", "nubus"),
   ("nginx-s3-gateway", "nubus"), ("dovecot", "open-xchange"),
   ("open-xchange", "open-xchange"), ("ox-connector", "open-xchange"),
   ("nextcloud", "nextcloud"), ("element", "element"), ("synapse", "element"),
   ("matrix", "element"), ("collabora", "collabora"), ("cryptpad", "cryptpad"),
   ("jitsi", "jitsi"), ("openproject", "openproject"), ("xwiki", "xwiki")]

/-- `_matches_component_pattern` (lines 279-304). -/
def matches_component_pattern (app_instance component_path : String) : Bool :=
  component_mappings.any (fun pc =>
    strInfix pc.1.data (pyLower app_instance).data && pc.2 == component_path)

/-- `_matches_resource_pattern` (lines 306-323).  The float threshold
`len(inter) >= min(2, len(app_keywords) * 0.5)` over integers is exactly
`2 * len(inter) >= min(4, len(app_keywords))`. -/
def matches_resource_pattern (app_instance resource_name : String) : Bool :=
  if app_instance == "" || resource_name == "" then false
  else
    let app_keywords :=
      ((splitOnChar '-' (pyLower app_instance).data).map
        (fun l => (⟨l⟩ : String))).dedup
    let resource_keywords :=
      (splitOnChar '-' (pyRemoveAll (pyLower resource_name) ("helm-chart-")).data).map
        (fun l => (⟨l⟩ : String))
    let inter := app_keywords.filter (fun kw => resource_keywords.contains kw)
    decide (min 4 app_keywords.length ≤ 2 * inter.length)

/-- A deployed container image from the scan (update_component_constructors.py,
lines 21-32); `namespc` models the `namespace` field. -/
structure DeployedImage where
  resource_name : String
  namespc : String
  resource_type : String
  container_name : String
  helm_chart : String
  app_instance : String
  oci_url : String
  oci_version : String
  oci_pin : String
deriving DecidableEq

/-- A HelmRelease→OCIRepository→Resource row from the exchange CSV
(lines 35-49). -/
structure HelmMapping where
  helm_release_id : String
  helm_release_name : String
  chart_ref_name : String
  oci_repository_id : String
  oci_repository_name : String
  oci_repository_url : String
  resource_id : String
  resource_name : String
  resource_reference_path : String
  resource_resource_name : String
  helm_release_conditions : String
  oci_repository_conditions : String
deriving DecidableEq

/-- The normalized deployed chart name of an image. -/
def dcn_of (img : DeployedImage) : String :=
  extract_chart_name_from_deployed img.helm_chart

/-- The normalized app-instance name of an image. -/
def nai_of (img : DeployedImage) : String :=
  normalize_app_instance_name img.app_instance

/-- The normalized resource-side chart name of a mapping. -/
def rcn_of (m : HelmMapping) : String :=
  extract_chart_name_from_resource m.resource_resource_name

/-- The reason strings of `find_correlations`, grouped so that the fixed
prefix is explicit. -/
def reason_direct (dcn : String) : String :=
  ("Direct chart name match: ") ++ dcn

/-- Reason of the similar-chart-names step. -/
def reason_similar (dcn rcn : String) : String :=
  ("Similar chart names: ") ++ (dcn ++ (" ≈ ") ++ rcn)

/-- Reason of the app-instance/component step. -/
def reason_component (nai refpath : String) : String :=
  ("App instance component match: ") ++ (nai ++ (" in ") ++ refpath)

/-- Reason of the resource-name-pattern step. -/
def reason_pattern (app resname : String) : String :=
  ("Resource pattern match: ") ++ (app ++ (" matches ") ++ resname)

/-- Guard of the direct-match branch (lines 213-217). -/
def cond1 (dcn rcn : String) : Bool :=
  !(dcn == "") && !(rcn == "") && dcn == rcn

/-- Guard of the similar-names branch (lines 219-223), reached only when
the direct guard failed. -/
def cond2 (dcn rcn : String) : Bool :=
  !(dcn == "") && !(rcn == "") && are_chart_names_similar dcn rcn

/-- Guard of the app-instance/component branch (lines 226-230), before its
`if not best_match`. -/
def cond3 (nai refpath : String) : Bool :=
  !(nai == "") && !(refpath == "") && matches_component_pattern nai refpath

/-- Guard of the resource-pattern branch (lines 233-237), before its
`if not best_match`. -/
def cond4 (app resname : String) : Bool :=
  !(app == "") && matches_resource_pattern app resname

/-- The inner loop of `find_correlations` (lines 209-237), carried state
`(best_match, match_reason)`; the direct and similar branches `break`. -/
def correlateGo (img : DeployedImage) (dcn nai : String) :
    Option HelmMapping × String → List HelmMapping → Option HelmMapping × String
  | st, [] => st
  | st, m :: rest =>
    if cond1 dcn (rcn_of m) then (some m, reason_direct dcn)
    else if cond2 dcn (rcn_of m) then (some m, reason_similar dcn (rcn_of m))
    else
      let st1 :=
        if cond3 nai m.resource_reference_path && st.1.isNone then
          (some m, reason_component nai m.resource_reference_path)
        else st
      let st2 :=
        if cond4 img.app_instance m.resource_resource_name && st1.1.isNone then
          (some m, reason_pattern img.app_instance m.resource_resource_name)
        else st1
      correlateGo img dcn nai st2 rest

/-- One iteration of the outer loop of `find_correlations` (lines
200-239): the per-image search over all mappings. -/
def correlate_image (img : DeployedImage) (mappings : List HelmMapping) :
    Option HelmMapping × String :=
  correlateGo img (dcn_of img) (nai_of img) (none, ("No match found")) mappings

/-- `find_correlations` (lines 193-241). -/
def find_correlations (imgs : List DeployedImage) (mappings : List HelmMapping) :
    List (DeployedImage × (Option HelmMapping × String)) :=
  imgs.map (fun img => (img, correlate_image img mappings))

/-- Heuristic step 1 (direct chart-name match) holds for this pair. -/
def step1 (img : DeployedImage) (m : HelmMapping) : Bool :=
  cond1 (dcn_of img) (rcn_of m)

/-- Step 1 or step 2 holds: exactly the pairs on which the loop breaks. -/
def step12 (img : DeployedImage) (m : HelmMapping) : Bool :=
  cond1 (dcn_of img) (rcn_of m) || cond2 (dcn_of img) (rcn_of m)

/-- Heuristic step 3 (app-instance/component match) holds. -/
def step3 (img : DeployedImage) (m : HelmMapping) : Bool :=
  cond3 (nai_of img) m.resource_reference_path

/-- Heuristic step 4 (resource-name keyword overlap) holds. -/
def step4 (img : DeployedImage) (m : HelmMapping) : Bool :=
  cond4 img.app_instance m.resource_resource_name

/-- The reason reported when the loop breaks on a pair satisfying step 1
or step 2. -/
def reason12 (img : DeployedImage) (m : HelmMapping) : String :=
  if dcn_of img == rcn_of m then reason_direct (dcn_of img)
  else reason_similar (dcn_of img) (rcn_of m)

/-- Image with no helm chart and app instance `keycloak-main` (claim C1
counterexample). -/
def imgKeycloak : DeployedImage :=
  ⟨"", "", "", "", "", "keycloak-main", "", "", ""⟩

/-- Mapping matched only by step 4 (keyword overlap on `main`). -/
def mapPattern : HelmMapping :=
  ⟨"", "", "", "", "", "", "", "", "", "helm-chart-main-x", "", ""⟩

/-- Mapping matched only by step 3 (component path `nubus`). -/
def mapComponent : HelmMapping :=
  ⟨"", "", "", "", "", "", "", "", "nubus", "helm-chart-nubus-zz", "", ""⟩

/-- Image with helm chart `abcd` and app instance `keycloak` (claim C5
counterexample). -/
def imgAbcd : DeployedImage :=
  ⟨"", "", "", "", "abcd", "keycloak", "", "", ""⟩

/-- Mapping matched only by step 2 (substring similarity `abcd`/`abcde`). -/
def mapSimilar : HelmMapping :=
  ⟨"", "", "", "", "", "", "", "", "", "helm-chart-abcde", "", ""⟩

/-- Mapping matched by step 1 (direct chart-name equality). -/
def mapDirect : HelmMapping :=
  ⟨"", "", "", "", "", "", "", "", "", "helm-chart-abcd", "", ""⟩

/-- Mapping matched only by step 3 (component path `nubus`), not by any
chart-name step. -/
def mapComp2 : HelmMapping :=
  ⟨"", "", "", "", "", "", "", "", "nubus", "helm-chart-qq", "", ""⟩

/-! ## The manifest patcher (claims C3 and C6)

Embedding of the text-rewriting core of
`_update_component_constructor_file` (update_component_constructors.py,
lines 552-650).  A file is a list of lines; the model assumes every
physical line is newline-terminated (the usual case), so a line is its
content without the terminator, the `''.join` window re-inserts the
newlines, and the source's fix-up for a missing final newline (lines
627-628) never fires.  The two inputs the source recomputes from the
parsed YAML — the helmChart anchor names in resource order and the image
records grouped by chart — are passed in directly, as in the claim's
`(anchor, ImageResourceRecord-list)` formulation. -/

/-- Python `str.lstrip()`. -/
def pyLstrip (s : String) : String :=
  ⟨s.data.dropWhile isPyWs⟩

/-- Python `str.strip()`. -/
def pyStrip (s : String) : String :=
  ⟨((s.data.dropWhile isPyWs).reverse.dropWhile isPyWs).reverse⟩

/-- `len(line) - len(line.lstrip())`. -/
def indentOf (line : String) : Nat :=
  line.length - (pyLstrip line).length

/-- Python `pat in s`. -/
def strContains (s pat : String) : Bool :=
  strInfix pat.data s.data

/-- Python `s.startswith(pat)`. -/
def strStarts (s pat : String) : Bool :=
  (consumeLit pat.data s.data).isSome

/-- The 9-line lookahead deciding whether a `- name: image-…` line starts
an ociImage resource (lines 560-566): stop at the next `- name:` line,
succeed on the first line containing `type: ociImage`. -/
def lookaheadOci : List String → Bool
  | [] => false
  | l :: rest =>
    if strContains l ("type: ociImage") then true
    else if strStarts (pyStrip l) ("- name:") then false
    else lookaheadOci rest

/-- The inner skip loop (lines 570-582): consume the block's lines (blank
lines included) up to, not including, the next sibling `- name:` at the
same or lower indentation, or a non-comment dedent. -/
def skipBlock (ind : Nat) : List String → List String
  | [] => []
  | l :: rest =>
    if pyStrip l == "" then skipBlock ind rest
    else if indentOf l ≤ ind && strStarts (pyStrip l) ("- name:") then l :: rest
    else if indentOf l < ind && !(pyStrip l == "") && !(strStarts (pyStrip l) ("#")) then
      l :: rest
    else skipBlock ind rest

/-- The removal scan (lines 552-586), fuelled by the line count: each
outer step consumes at least its start line. -/
def cleanGo : Nat → List String → List String
  | 0, lines => lines
  | _ + 1, [] => []
  | fuel + 1, l :: rest =>
    if strContains l ("- name:") && strContains l ("image-")
        && lookaheadOci (rest.take 9) then
      cleanGo fuel (skipBlock (indentOf l) rest)
    else l :: cleanGo fuel rest

/-- Remove existing ociImage resource blocks from the line list. -/
def removeOciImageBlocks (lines : List String) : List String :=
  cleanGo lines.length lines

/-- A synthesized image resource record as written by
`_create_image_resource_entry`. -/
structure ImageRes where
  name : String
  rtype : String
  version : String
  access_type : String
  image_reference : String
deriving DecidableEq

/-- The six emitted lines per record (lines 630-638): fixed indentation
and key order, version quoted. -/
def imageYamlLines : List ImageRes → List String
  | [] => []
  | r :: rest =>
    (("      - name: ") ++ r.name) ::
    (("        type: ") ++ r.rtype) ::
    (("        version: \"") ++ r.version ++ ("\"")) ::
    ("        access:") ::
    (("          type: ") ++ r.access_type) ::
    (("          imageReference: ") ++ r.image_reference) ::
    imageYamlLines rest

/-- `''.join(new_lines[max(0, i-2):i+5])` over newline-terminated lines. -/
def joinWindow (lines : List String) (i : Nat) : String :=
  String.join (((lines.drop (i - 2)).take (i + 5 - (i - 2))).map (fun l => l ++ ("\n")))

/-- The anchor test of line 603: the line names the chart and `helmChart`
occurs in the surrounding seven-line window. -/
def isChartLine (lines : List String) (chart : String) (i : Nat) : Bool :=
  match lines.get? i with
  | some l => strContains l (("name: ") ++ chart) && strContains (joinWindow lines i) ("helmChart")
  | none => false

/-- First line index matching the anchor test (the source breaks at the
first hit). -/
def findChartIdx (lines : List String) (chart : String) : Option Nat :=
  (List.range lines.length).find? (isChartLine lines chart)

/-- The end-of-anchor-block scan (lines 605-618), carrying the absolute
index: blanks do not break; the next `- name:` sibling at the same or
lower indentation, or a non-comment dedent, does; falling off the end
gives the length. -/
def chartEndFrom (ind : Nat) : List String → Nat → Nat
  | [], j => j
  | l :: rest, j =>
    if pyStrip l == "" then chartEndFrom ind rest (j + 1)
    else if (indentOf l ≤ ind && strStarts (pyStrip l) ("- name:"))
        || (indentOf l < ind && !(pyStrip l == "") && !(strStarts (pyStrip l) ("#"))) then j
    else chartEndFrom ind rest (j + 1)

/-- First binding of a chart name in the grouped-images table. -/
def lookupImages : List (String × List ImageRes) → String → Option (List ImageRes)
  | [], _ => none
  | (k, v) :: t, chart => if k == chart then some v else lookupImages t chart

/-- `lines_to_insert[pos] = ls` with dict overwrite semantics. -/
def setAssoc (ps : List (Nat × List String)) (k : Nat) (v : List String) :
    List (Nat × List String) :=
  match ps with
  | [] => [(k, v)]
  | (k', v') :: t => if k' == k then (k, v) :: t else (k', v') :: setAssoc t k v

/-- The per-chart loop (lines 591-641) collecting `lines_to_insert`. -/
def collectInserts (cleaned : List String)
    (imagesByChart : List (String × List ImageRes)) :
    List String → List (Nat × List String) → List (Nat × List String)
  | [], acc => acc
  | chart :: more, acc =>
    match lookupImages imagesByChart chart with
    | none => collectInserts cleaned imagesByChart more acc
    | some imgs =>
      match findChartIdx cleaned chart with
      | none => collectInserts cleaned imagesByChart more acc
      | some i =>
        let ind := indentOf ((cleaned.get? i).getD (""))
        let cend := chartEndFrom ind (cleaned.drop (i + 1)) (i + 1)
        collectInserts cleaned imagesByChart more (setAssoc acc cend (imageYamlLines imgs))

/-- `final_lines[pos:pos] = xs`. -/
def insertAt (pos : Nat) (xs : List String) (lines : List String) : List String :=
  lines.take pos ++ xs ++ lines.drop pos

/-- Insert a pair keeping the list sorted by descending position. -/
def insertSortedDesc (p : Nat × List String) :
    List (Nat × List String) → List (Nat × List String)
  | [] => [p]
  | q :: t => if q.1 ≤ p.1 then p :: q :: t else q :: insertSortedDesc p t

/-- `sorted(keys, reverse=True)` over the association list. -/
def sortDesc : List (Nat × List String) → List (Nat × List String)
  | [] => []
  | p :: t => insertSortedDesc p (sortDesc t)

/-- Apply all insertions in descending position order (lines 644-646). -/
def applyInserts (ps : List (Nat × List String)) (lines : List String) : List String :=
  (sortDesc ps).foldl (fun acc p => insertAt p.1 p.2 acc) lines

/-- The text-rewriting core of `_update_component_constructor_file`:
remove every recognized ociImage block, then insert the grouped image
blocks after their anchor charts. -/
def update_component_constructor_lines (lines : List String)
    (charts : List String) (imagesByChart : List (String × List ImageRes)) :
    List String :=
  let cleaned := removeOciImageBlocks lines
  applyInserts (collectInserts cleaned imagesByChart charts []) cleaned

/-- A manifest with an ociImage-typed block whose name lacks `image-`
(claim C3 counterexample). -/
def c3lines : List String :=
  ["components:", "  - name: comp", "    resources:",
   "      - name: foo", "        type: ociImage",
   "        version: \"1.0.0\""]

/-- A manifest with an ociImage-typed, non-`image-`-named block, used to
witness that the cleaner leaves such documents untouched. -/
def c3wit : List String :=
  ["components:", "  - name: comp2", "    resources:",
   "      - name: bar", "        type: ociImage"]

/-- The claim C6 counterexample document: a typeless `image-a` stub whose
9-line lookahead only reads `type: ociImage` after the following block is
removed, plus a literal block scalar containing that text. -/
def c6lines : List String :=
  ["components:", "  - name: comp", "    resources:",
   "      - name: helm-chart-foo", "        type: helmChart",
   "      - name: image-a", "      - name: image-b", "        type: ociImage",
   "    x: |", "      type: ociImage"]

/-- The anchor list of the C6 documents. -/
def c6charts : List String := ["helm-chart-foo"]

/-- One synthesized image record for the anchor. -/
def c6imgs : List (String × List ImageRes) :=
  [("helm-chart-foo", [⟨"image-img1", "ociImage", "1.0.0", "ociArtifact", "oci://r/img:1"⟩])]

/-- A well-behaved manifest on which the patch is idempotent. -/
def c6wit : List String :=
  ["components:", "  - name: comp", "    resources:",
   "      - name: helm-chart-foo", "        type: helmChart",
   "      - name: other", "        type: helmChart"]

/-! ## Theorems -/

/-! ## Helper lemmas about the sanitizer and the splitters -/

theorem sanChar_idem (c : Char) : sanChar (sanChar c) = sanChar c := by
  by_cases hc : isSanOk c = true
  · simp [sanChar, hc]
  · simp [sanChar, hc]

theorem sanitizeVersion_idem (v : String) :
    sanitizeVersion (sanitizeVersion v) = sanitizeVersion v := by
  unfold sanitizeVersion
  refine congrArg String.mk ?_
  rw [List.map_map]
  have h : sanChar ∘ sanChar = sanChar := funext sanChar_idem
  rw [h]

theorem mem_sanitizeVersion {v : String} {c : Char}
    (h : c ∈ (sanitizeVersion v).data) : isSanOk c = true := by
  unfold sanitizeVersion at h
  simp only [List.mem_map] at h
  obtain ⟨c', _, rfl⟩ := h
  by_cases hc : isSanOk c' = true
  · simp [sanChar, hc]
  · have h2 : sanChar c' = '-' := by simp [sanChar, hc]
    rw [h2]
    decide

theorem splitOnChar_cons (sep c : Char) (t : List Char) :
    splitOnChar sep (c :: t) =
      if c == sep then [] :: splitOnChar sep t
      else match splitOnChar sep t with
        | h :: r => (c :: h) :: r
        | [] => [[c]] := rfl

theorem mem_splitOnChar {sep : Char} :
    ∀ {l seg : List Char} {c : Char},
      seg ∈ splitOnChar sep l → c ∈ seg → c ∈ l ∧ c ≠ sep := by
  intro l
  induction l with
  | nil =>
    intro seg c hseg hc
    simp [splitOnChar] at hseg
    subst hseg
    cases hc
  | cons a t ih =>
    intro seg c hseg hc
    rw [splitOnChar_cons] at hseg
    by_cases ha : (a == sep) = true
    · rw [if_pos ha] at hseg
      rcases List.mem_cons.mp hseg with h1 | h2
      · subst h1; cases hc
      · have h3 := ih h2 hc
        exact ⟨List.mem_cons_of_mem _ h3.1, h3.2⟩
    · rw [if_neg ha] at hseg
      have hane : a ≠ sep := by
        intro hE
        subst hE
        simp at ha
      rcases hrec : splitOnChar sep t with _ | ⟨h0, r⟩
      · rw [hrec] at hseg
        simp at hseg
        subst hseg
        have hca := List.mem_singleton.mp hc
        subst hca
        exact ⟨List.mem_cons_self _ _, hane⟩
      · rw [hrec] at hseg
        rcases List.mem_cons.mp hseg with h1 | h2
        · subst h1
          rcases List.mem_cons.mp hc with h1 | h1
          · subst h1
            exact ⟨List.mem_cons_self _ _, hane⟩
          · have hmem : h0 ∈ splitOnChar sep t := by
              rw [hrec]
              exact List.mem_cons_self _ _
            have h3 := ih hmem h1
            exact ⟨List.mem_cons_of_mem _ h3.1, h3.2⟩
        · have hmem : seg ∈ splitOnChar sep t := by
            rw [hrec]
            exact List.mem_cons_of_mem _ h2
          have h3 := ih hmem hc
          exact ⟨List.mem_cons_of_mem _ h3.1, h3.2⟩

theorem getLast?_eq_some_mem {α : Type} {l : List α} {a : α}
    (h : l.getLast? = some a) : a ∈ l :=
  List.mem_of_mem_getLast? (by simp [h])

/-! ## Claims C2 and C4: the version validator -/

/-- Claim C2 (amended): `_validate_semantic_version` returns a string
matching the semantic-version grammar for every input whose sanitized form
is non-empty and has no empty dot-separated segment.  (The unamended claim
fails on inputs such as the empty string, see the counterexample.) -/
theorem claim_C2_amended (v : String)
    (h1 : (sanitizeVersion v).data ≠ [])
    (h2 : ∀ seg ∈ splitOnChar '.' (sanitizeVersion v).data, seg ≠ []) :
    matchesSemverPy (validate_semantic_version v).data = true := by
  by_cases hm : matchesSemverPy (sanitizeVersion v).data = true
  · simp [validate_semantic_version, hm]
  · have hres : (validate_semantic_version v).data
        = ("0.0.0+").data ++ (sanitizeVersion v).data := by
      simp [validate_semantic_version, hm, String.data_append]
    rw [hres]
    have hnl : ∀ c ∈ (sanitizeVersion v).data, c ≠ '\n' := by
      intro c hc hE
      subst hE
      have hs := mem_sanitizeVersion hc
      simp [isSanOk] at hs
    have hlast : (("0.0.0+").data ++ (sanitizeVersion v).data).getLast?
        = (sanitizeVersion v).data.getLast? :=
      List.getLast?_append_of_ne_nil _ h1
    have hcond : ((("0.0.0+").data ++ (sanitizeVersion v).data).getLast? == some '\n')
        = false := by
      rw [hlast]
      cases hl : (sanitizeVersion v).data.getLast? with
      | none => rfl
      | some a =>
        have ha := getLast?_eq_some_mem hl
        have hne := hnl a ha
        simp [hne]
    rw [matchesSemverPy, hcond]
    simp only [Bool.false_eq_true, if_false]
    have hsplit : splitAtFirst '+' (("0.0.0+").data ++ (sanitizeVersion v).data)
        = (("0.0.0").data, some (sanitizeVersion v).data) := rfl
    rw [semverNoNl, hsplit]
    have hcore : splitAtFirst '-' (("0.0.0").data) = (("0.0.0").data, none) := rfl
    rw [hcore]
    simp only [Bool.and_eq_true]
    refine ⟨⟨by decide, trivial⟩, ?_⟩
    rw [List.all_eq_true]
    intro seg hseg
    rw [buildIdOk]
    simp only [Bool.and_eq_true]
    constructor
    · have := h2 seg hseg
      cases seg with
      | nil => exact absurd rfl this
      | cons x xs => rfl
    · rw [List.all_eq_true]
      intro c hc
      have hmm := mem_splitOnChar hseg hc
      have hsok := mem_sanitizeVersion hmm.1
      have hdot : (c == '.') = false := by
        simp only [beq_eq_false_iff_ne, ne_eq]
        exact hmm.2
      rw [isSanOk, hdot] at hsok
      simp only [Bool.false_or] at hsok
      rw [isSemChar]
      exact hsok

/-- Claim C2 counterexample: on the empty input the sanitized form is empty,
still fails the grammar, and the returned `"0.0.0+"` has an empty build
part, so it is NOT well-formed — refuting the claim that the result is
well-formed for every input string. -/
theorem claim_C2_counterexample :
    validate_semantic_version ("") = ("0.0.0+") ∧
    matchesSemverPy (validate_semantic_version ("")).data = false := by
  decide

/-- Witness for `claim_C2_amended` at the spec's own example input. -/
theorem claim_C2_witness :
    ((sanitizeVersion ("not a semver!!")).data ≠ [] ∧
      (∀ seg ∈ splitOnChar '.' (sanitizeVersion ("not a semver!!")).data, seg ≠ [])) ∧
    matchesSemverPy (validate_semantic_version ("not a semver!!")).data = true :=
  ⟨⟨by decide, by decide⟩, claim_C2_amended ("not a semver!!") (by decide) (by decide)⟩

/-- Claim C4 (amended): the version validator is idempotent on every input
whose sanitized form matches the grammar — in particular on every
already-valid version without a `+`.  (Unamended, idempotence on every
already-valid version fails: sanitization turns `+` into `-`, which can
break a valid build part, see the counterexample.) -/
theorem claim_C4_amended (v : String)
    (h : matchesSemverPy (sanitizeVersion v).data = true) :
    validate_semantic_version (validate_semantic_version v)
      = validate_semantic_version v := by
  have h1 : validate_semantic_version v = sanitizeVersion v := by
    simp [validate_semantic_version, h]
  rw [h1]
  simp [validate_semantic_version, sanitizeVersion_idem, h]

/-- Claim C4 counterexample: `"0+00"` matches the grammar (build id `00`),
but sanitization maps it to `"0-00"` whose prerelease id `00` is invalid,
so the first application returns `"0.0.0+0-00"` and the second returns
`"0.0.0-0-00"` — the validator is not idempotent on this valid version. -/
theorem claim_C4_counterexample :
    matchesSemverPy ("0+00").data = true ∧
    validate_semantic_version (validate_semantic_version ("0+00"))
      ≠ validate_semantic_version ("0+00") := by
  decide

/-- Witness for `claim_C4_amended` at a concrete already-valid version. -/
theorem claim_C4_witness :
    matchesSemverPy (sanitizeVersion ("1.2.3")).data = true ∧
    validate_semantic_version (validate_semantic_version ("1.2.3"))
      = validate_semantic_version ("1.2.3") :=
  ⟨by decide, claim_C4_amended ("1.2.3") (by decide)⟩

/-! ## Lemmas for the extractor scanners -/

theorem takeWhile_append_all {p : Char → Bool} {xs : List Char} (ys : List Char)
    (h : xs.all p = true) : (xs ++ ys).takeWhile p = xs ++ ys.takeWhile p := by
  induction xs with
  | nil => simp
  | cons a t ih =>
    rw [List.all_cons, Bool.and_eq_true] at h
    simp only [List.cons_append, List.takeWhile_cons, h.1, if_true]
    rw [ih h.2]

theorem dropWhile_append_all {p : Char → Bool} {xs : List Char} (ys : List Char)
    (h : xs.all p = true) : (xs ++ ys).dropWhile p = ys.dropWhile p := by
  induction xs with
  | nil => simp
  | cons a t ih =>
    rw [List.all_cons, Bool.and_eq_true] at h
    simp only [List.cons_append, List.dropWhile_cons, h.1, if_true]
    exact ih h.2

theorem takeWhile_eq_nil_of_head {p : Char → Bool} {l : List Char}
    (h : ∀ c, l.head? = some c → p c = false) : l.takeWhile p = [] := by
  cases l with
  | nil => rfl
  | cons a t =>
    have ha := h a rfl
    simp [List.takeWhile_cons, ha]

theorem dropWhile_eq_self_of_head {p : Char → Bool} {l : List Char}
    (h : ∀ c, l.head? = some c → p c = false) : l.dropWhile p = l := by
  cases l with
  | nil => rfl
  | cons a t =>
    have ha := h a rfl
    simp [List.dropWhile_cons, ha]

theorem consumeLit_self (lit rest : List Char) :
    consumeLit lit (lit ++ rest) = some rest := by
  induction lit with
  | nil => rfl
  | cons c cs ih => simp [consumeLit, ih]

theorem consumeLit_eq_some :
    ∀ {lit l rest : List Char}, consumeLit lit l = some rest → l = lit ++ rest := by
  intro lit
  induction lit with
  | nil =>
    intro l rest h
    simp [consumeLit] at h
    simp [h]
  | cons c cs ih =>
    intro l rest h
    cases l with
    | nil => cases h
    | cons d ds =>
      rw [consumeLit] at h
      by_cases hd : (d == c) = true
      · rw [if_pos hd] at h
        have := ih h
        rw [List.cons_append, ← this]
        have hdc : d = c := by simpa using hd
        rw [hdc]
      · rw [if_neg hd] at h
        cases h

theorem isPyWs_false_of_isAlpha {c : Char} (h : c.isAlpha = true) :
    isPyWs c = false := by
  by_contra hw
  rw [Bool.not_eq_false] at hw
  simp only [isPyWs, Bool.or_eq_true, beq_iff_eq] at hw
  rcases hw with ((((h1 | h1) | h1) | h1) | h1) | h1 <;> subst h1 <;> exact absurd h (by decide)

theorem isPyWs_false_of_isAlphanum {c : Char} (h : c.isAlphanum = true) :
    isPyWs c = false := by
  by_contra hw
  rw [Bool.not_eq_false] at hw
  simp only [isPyWs, Bool.or_eq_true, beq_iff_eq] at hw
  rcases hw with ((((h1 | h1) | h1) | h1) | h1) | h1 <;> subst h1 <;> exact absurd h (by decide)

theorem isAlphanum_false_of_isPyWs {c : Char} (h : isPyWs c = true) :
    c.isAlphanum = false := by
  by_contra hw
  rw [Bool.not_eq_false] at hw
  exact absurd h (by rw [isPyWs_false_of_isAlphanum hw]; decide)

theorem isAlphanum_of_isAlpha {c : Char} (h : c.isAlpha = true) :
    c.isAlphanum = true := by
  simp [Char.isAlphanum, h]

theorem all_takeWhile (p : Char → Bool) (l : List Char) :
    (l.takeWhile p).all p = true := by
  rw [List.all_eq_true]
  intro x hx
  exact List.mem_takeWhile_imp hx

theorem matchAfterBrace_sound {lit cs X : List Char}
    (h : matchAfterBrace lit cs = some X) :
    ∃ ws1 ws2 ws3 suf : List Char,
      ws1.all isPyWs = true ∧ ws2.all isPyWs = true ∧ ws3.all isPyWs = true ∧
      identOk X = true ∧
      cs = ws1 ++ X ++ ws2 ++ lit ++ ws3 ++ '}' :: suf := by
  unfold matchAfterBrace at h
  rcases hdrop : cs.dropWhile isPyWs with _ | ⟨c, rest⟩ <;> rw [hdrop] at h
  · cases h
  have h' : (if c.isAlpha then
      (if tailOk lit rest then some (c :: rest.takeWhile Char.isAlphanum) else none)
      else none) = some X := h
  by_cases hal : c.isAlpha = true
  swap
  · rw [if_neg hal] at h'
    cases h'
  rw [if_pos hal] at h'
  by_cases htail : tailOk lit rest = true
  swap
  · rw [if_neg htail] at h'
    cases h'
  rw [if_pos htail] at h'
  have hX : X = c :: rest.takeWhile Char.isAlphanum := (Option.some.injEq _ _ ▸ h').symm
  unfold tailOk at htail
  rcases hcl : consumeLit lit ((rest.dropWhile Char.isAlphanum).dropWhile isPyWs)
      with _ | rest2 <;> rw [hcl] at htail
  · have hfalse : (false : Bool) = true := htail
    cases hfalse
  have hbrace : ((rest2.dropWhile isPyWs).head? == some '}') = true := htail
  rcases hd2 : rest2.dropWhile isPyWs with _ | ⟨c2, suf0⟩ <;> rw [hd2] at hbrace
  · cases hbrace
  have hc2 : c2 = '}' := by
    have hsome := beq_iff_eq.mp hbrace
    simpa using hsome
  subst hc2
  refine ⟨cs.takeWhile isPyWs, (rest.dropWhile Char.isAlphanum).takeWhile isPyWs,
    rest2.takeWhile isPyWs, suf0, all_takeWhile _ _, all_takeWhile _ _, all_takeWhile _ _, ?_, ?_⟩
  · rw [hX, identOk]
    simp only [Bool.and_eq_true]
    exact ⟨hal, all_takeWhile _ _⟩
  · have e1 : cs = cs.takeWhile isPyWs ++ (c :: rest) := by
      rw [← hdrop]
      exact (List.takeWhile_append_dropWhile isPyWs cs).symm
    have e2 : rest = rest.takeWhile Char.isAlphanum ++ rest.dropWhile Char.isAlphanum :=
      (List.takeWhile_append_dropWhile _ _).symm
    have e3 : rest.dropWhile Char.isAlphanum
        = (rest.dropWhile Char.isAlphanum).takeWhile isPyWs ++ (lit ++ rest2) := by
      rw [← consumeLit_eq_some hcl]
      exact (List.takeWhile_append_dropWhile _ _).symm
    have e4 : rest2 = rest2.takeWhile isPyWs ++ ('}' :: suf0) := by
      rw [← hd2]
      exact (List.takeWhile_append_dropWhile _ _).symm
    rw [hX]
    calc cs = cs.takeWhile isPyWs ++ (c :: rest) := e1
      _ = cs.takeWhile isPyWs ++ (c :: (rest.takeWhile Char.isAlphanum
            ++ ((rest.dropWhile Char.isAlphanum).takeWhile isPyWs
            ++ (lit ++ (rest2.takeWhile isPyWs ++ ('}' :: suf0)))))) := by
          rw [← e4, ← e3, ← e2]
      _ = cs.takeWhile isPyWs ++ (c :: rest.takeWhile Char.isAlphanum)
            ++ (rest.dropWhile Char.isAlphanum).takeWhile isPyWs
            ++ lit ++ rest2.takeWhile isPyWs ++ '}' :: suf0 := by
          simp [List.append_assoc]

theorem matchAfterBrace_complete {lit ws1 ws2 ws3 suf X : List Char}
    (hlit : litHeadOk lit = true)
    (h1 : ws1.all isPyWs = true) (h2 : ws2.all isPyWs = true)
    (h3 : ws3.all isPyWs = true) (hX : identOk X = true) :
    matchAfterBrace lit (ws1 ++ X ++ ws2 ++ lit ++ ws3 ++ '}' :: suf) = some X := by
  rcases X with _ | ⟨x, xt⟩
  · exact absurd hX (by simp [identOk])
  rcases lit with _ | ⟨lc, lt⟩
  · exact absurd hlit (by simp [litHeadOk])
  rw [identOk, Bool.and_eq_true] at hX
  obtain ⟨hxa, hxt⟩ := hX
  rw [litHeadOk, Bool.and_eq_true, Bool.not_eq_true', Bool.not_eq_true'] at hlit
  obtain ⟨hlcw, hlca⟩ := hlit
  -- the whole argument, right-associated with the identifier head exposed
  have harg : ws1 ++ (x :: xt) ++ ws2 ++ (lc :: lt) ++ ws3 ++ '}' :: suf
      = ws1 ++ (x :: (xt ++ (ws2 ++ (lc :: (lt ++ (ws3 ++ '}' :: suf)))))) := by
    simp [List.append_assoc]
  -- head of the part after the identifier is never alphanumeric
  have hh : ∀ c', (ws2 ++ (lc :: (lt ++ (ws3 ++ '}' :: suf)))).head? = some c' →
      c'.isAlphanum = false := by
    rcases ws2 with _ | ⟨w, wt⟩
    · intro c' hc'
      simp at hc'
      rw [← hc']
      exact hlca
    · intro c' hc'
      simp at hc'
      rw [← hc']
      rw [List.all_cons, Bool.and_eq_true] at h2
      exact isAlphanum_false_of_isPyWs h2.1
  have e1 : (ws1 ++ (x :: (xt ++ (ws2 ++ (lc :: (lt ++ (ws3 ++ '}' :: suf))))))).dropWhile isPyWs
      = x :: (xt ++ (ws2 ++ (lc :: (lt ++ (ws3 ++ '}' :: suf))))) := by
    rw [dropWhile_append_all _ h1]
    simp [List.dropWhile_cons, isPyWs_false_of_isAlpha hxa]
  have e2 : ((xt ++ (ws2 ++ (lc :: (lt ++ (ws3 ++ '}' :: suf))))).dropWhile Char.isAlphanum).dropWhile isPyWs
      = (lc :: lt) ++ (ws3 ++ '}' :: suf) := by
    rw [dropWhile_append_all _ hxt]
    rw [dropWhile_eq_self_of_head hh]
    rw [dropWhile_append_all _ h2]
    simp [List.dropWhile_cons, hlcw, List.append_assoc]
  have e3 : ((ws3 ++ '}' :: suf).dropWhile isPyWs).head? = some '}' := by
    rw [dropWhile_append_all _ h3]
    have hbw : isPyWs '}' = false := by decide
    simp [List.dropWhile_cons, hbw]
  have tOk : tailOk (lc :: lt) (xt ++ (ws2 ++ (lc :: (lt ++ (ws3 ++ '}' :: suf))))) = true := by
    unfold tailOk
    rw [e2, consumeLit_self]
    show (((ws3 ++ '}' :: suf).dropWhile isPyWs).head? == some '}') = true
    rw [e3]
    rfl
  have e4 : (xt ++ (ws2 ++ (lc :: (lt ++ (ws3 ++ '}' :: suf))))).takeWhile Char.isAlphanum = xt := by
    rw [takeWhile_append_all _ hxt, takeWhile_eq_nil_of_head hh, List.append_nil]
  rw [harg]
  unfold matchAfterBrace
  rw [e1]
  show (if x.isAlpha then
      (if tailOk (lc :: lt) (xt ++ (ws2 ++ (lc :: (lt ++ (ws3 ++ '}' :: suf))))) = true then
        some (x :: (xt ++ (ws2 ++ (lc :: (lt ++ (ws3 ++ '}' :: suf))))).takeWhile Char.isAlphanum)
      else none)
      else none) = some (x :: xt)
  rw [if_pos hxa, if_pos tOk, e4]

theorem matchExprAt_sound {lit l X : List Char}
    (h : matchExprAt lit l = some X) : shapeAt lit l [] X := by
  rcases l with _ | ⟨a, _ | ⟨b, rest⟩⟩
  · cases h
  · have h' : (none : Option (List Char)) = some X := h
    cases h'
  · have h' : (if a == '$' && b == '{' then matchAfterBrace lit rest else none)
        = some X := h
    by_cases hab : (a == '$' && b == '{') = true
    · rw [if_pos hab] at h'
      rw [Bool.and_eq_true] at hab
      have ha : a = '$' := beq_iff_eq.mp hab.1
      have hb : b = '{' := beq_iff_eq.mp hab.2
      subst ha
      subst hb
      obtain ⟨ws1, ws2, ws3, suf, H1, H2, H3, HX, Heq⟩ := matchAfterBrace_sound h'
      exact ⟨ws1, ws2, ws3, suf, H1, H2, H3, HX, by rw [Heq]; rfl⟩
    · rw [if_neg hab] at h'
      cases h'

theorem matchExprAt_complete {lit l X : List Char}
    (hlit : litHeadOk lit = true) (hs : shapeAt lit l [] X) :
    matchExprAt lit l = some X := by
  obtain ⟨ws1, ws2, ws3, suf, H1, H2, H3, HX, Heq⟩ := hs
  rw [List.nil_append] at Heq
  subst Heq
  have hred : matchExprAt lit ('$' :: '{' :: (ws1 ++ X ++ ws2 ++ lit ++ ws3 ++ '}' :: suf))
      = matchAfterBrace lit (ws1 ++ X ++ ws2 ++ lit ++ ws3 ++ '}' :: suf) := by
    show (if ('$' : Char) == '$' && ('{' : Char) == '{' then
        matchAfterBrace lit (ws1 ++ X ++ ws2 ++ lit ++ ws3 ++ '}' :: suf) else none)
      = matchAfterBrace lit (ws1 ++ X ++ ws2 ++ lit ++ ws3 ++ '}' :: suf)
    rw [if_pos (by decide)]
  rw [hred]
  exact matchAfterBrace_complete hlit H1 H2 H3 HX

theorem shapeAt_cons {lit t pre X : List Char} (c : Char)
    (h : shapeAt lit t pre X) : shapeAt lit (c :: t) (c :: pre) X := by
  obtain ⟨ws1, ws2, ws3, suf, H1, H2, H3, HX, Heq⟩ := h
  exact ⟨ws1, ws2, ws3, suf, H1, H2, H3, HX, by rw [Heq]; rfl⟩

theorem shapeAt_cons_inv {lit t pre X : List Char} {c p : Char}
    (h : shapeAt lit (c :: t) (p :: pre) X) : c = p ∧ shapeAt lit t pre X := by
  obtain ⟨ws1, ws2, ws3, suf, H1, H2, H3, HX, Heq⟩ := h
  rw [List.cons_append] at Heq
  injection Heq with h1 h2
  exact ⟨h1, ws1, ws2, ws3, suf, H1, H2, H3, HX, h2⟩

theorem shapeAt_nil_inv {lit pre X : List Char} (h : shapeAt lit [] pre X) : False := by
  obtain ⟨ws1, ws2, ws3, suf, _, _, _, _, Heq⟩ := h
  rcases List.append_eq_nil.mp Heq.symm with ⟨_, h2⟩
  cases h2

theorem searchExpr_cons (lit : List Char) (c : Char) (t : List Char) :
    searchExpr lit (c :: t) =
      match matchExprAt lit (c :: t) with
      | some ident => some ident
      | none => searchExpr lit t := rfl

theorem searchExpr_none_of_no_shape {lit : List Char} :
    ∀ {s : List Char}, (∀ pre X, ¬ shapeAt lit s pre X) → searchExpr lit s = none := by
  intro s
  induction s with
  | nil => intro _; rfl
  | cons c t ih =>
    intro h
    rw [searchExpr_cons]
    rcases hm : matchExprAt lit (c :: t) with _ | X
    · show searchExpr lit t = none
      exact ih (fun pre X hX => h (c :: pre) X (shapeAt_cons c hX))
    · exact absurd (matchExprAt_sound hm) (h [] X)

theorem searchExpr_some_of_first {lit : List Char} (hlit : litHeadOk lit = true) :
    ∀ {s pre X : List Char}, shapeAt lit s pre X →
      (∀ pre' X', shapeAt lit s pre' X' → pre.length ≤ pre'.length) →
      searchExpr lit s = some X := by
  intro s
  induction s with
  | nil =>
    intro pre X hs _
    exact absurd hs (fun h => shapeAt_nil_inv h)
  | cons c t ih =>
    intro pre X hs hmin
    rw [searchExpr_cons]
    rcases pre with _ | ⟨p, pre'⟩
    · rw [matchExprAt_complete hlit hs]
    · rcases hm : matchExprAt lit (c :: t) with _ | Y
      · show searchExpr lit t = some X
        obtain ⟨hc, hs'⟩ := shapeAt_cons_inv hs
        refine ih hs' ?_
        intro q Y' hq
        have hlen := hmin (c :: q) Y' (shapeAt_cons c hq)
        simpa using hlen
      · exfalso
        have hshape := matchExprAt_sound hm
        have hlen := hmin [] Y hshape
        simp at hlen

/-! ## Claims C8 and C10: the expression extractors -/

/-- Claim C8 (confirmed): for every string containing an occurrence of the
Shape-A pattern, `parse_template_expression` returns the identifier of the
leftmost occurrence; for every string without an occurrence it returns no
match; and a non-string input yields no match rather than failing. -/
theorem claim_C8_shape_extractor (s : List Char) :
    (∀ pre X, shapeAt litChartRef s pre X →
        (∀ pre' X', shapeAt litChartRef s pre' X' → pre.length ≤ pre'.length) →
        parse_template_expression (.str ⟨s⟩) = some X.asString) ∧
    ((∀ pre X, ¬ shapeAt litChartRef s pre X) →
        parse_template_expression (.str ⟨s⟩) = none) ∧
    parse_template_expression .nonstr = none := by
  refine ⟨?_, ?_, rfl⟩
  · intro pre X hs hmin
    show (searchExpr litChartRef (String.mk s).data).map List.asString = some X.asString
    have hd : (String.mk s).data = s := rfl
    rw [hd, searchExpr_some_of_first (by decide) hs hmin]
    rfl
  · intro h
    show (searchExpr litChartRef (String.mk s).data).map List.asString = none
    have hd : (String.mk s).data = s := rfl
    rw [hd, searchExpr_none_of_no_shape h]
    rfl

/-- Witness for `claim_C8_shape_extractor` at a concrete Shape-A string. -/
theorem claim_C8_witness :
    shapeAt litChartRef ("${ fooOCIRepository.metadata.name }").data []
      (("fooOCIRepository").data) ∧
    parse_template_expression (.str ("${ fooOCIRepository.metadata.name }"))
      = some ("fooOCIRepository") := by
  have hshape : shapeAt litChartRef ("${ fooOCIRepository.metadata.name }").data []
      (("fooOCIRepository").data) :=
    ⟨[' '], [], [' '], [], by decide, by decide, by decide, by decide, by decide⟩
  refine ⟨hshape, ?_⟩
  exact (claim_C8_shape_extractor (("${ fooOCIRepository.metadata.name }").data)).1
    [] (("fooOCIRepository").data) hshape (fun pre' X' _ => Nat.zero_le _)

/-- Claim C10 (confirmed): on every Python string input the two Shape-A
implementations agree, and the two Shape-B implementations agree.  (The
regex literals of the two scripts are character-identical; both embed to
the same scan.) -/
theorem claim_C10_extractors_agree (s : String) :
    parse_template_expression (.str s) = parse_helm_to_oci s ∧
    parse_oci_url_template (.str s) = parse_oci_to_resource s :=
  ⟨rfl, rfl⟩

theorem analyzeLoop_eq (doc : List YVal) :
    ∀ hrs : List YVal,
      analyzeLoop doc hrs
        = (hrs.filterMap (chain_of doc),
           hrs.filter (fun r => (chain_of doc r).isNone)) := by
  intro hrs
  induction hrs with
  | nil => rfl
  | cons hr t ih =>
    simp only [analyzeLoop, ih]
    cases hc : chain_of doc hr with
    | some c => simp [List.filterMap_cons, List.filter_cons, hc]
    | none => simp [List.filterMap_cons, List.filter_cons, hc]

theorem chain_of_spec {doc : List YVal} {hr : YVal} {rec : ChainRec}
    (h : chain_of doc hr = some rec) :
    rec.hr = hr ∧
    (∀ v, parse_helm_to_oci (chart_ref_of hr) = some v →
        oci_by_id doc v = some rec.oci) := by
  rcases hp : parse_helm_to_oci (chart_ref_of hr) with _ | v0
  · simp [chain_of, hp] at h
  · rcases hrep : oci_by_id doc v0 with _ | repo
    · simp [chain_of, hp, hrep] at h
    · rcases hw : parse_oci_to_resource (url_of repo) with _ | w
      · simp only [chain_of, hp, hrep, hw] at h
        have h2 := Option.some.inj h
        subst h2
        refine ⟨rfl, fun v hv => ?_⟩
        obtain rfl := Option.some.inj hv
        exact hrep
      · rcases hres : resource_by_id doc w with _ | res
        · simp only [chain_of, hp, hrep, hw, hres] at h
          have h2 := Option.some.inj h
          subst h2
          refine ⟨rfl, fun v hv => ?_⟩
          obtain rfl := Option.some.inj hv
          exact hrep
        · simp only [chain_of, hp, hrep, hw, hres] at h
          have h2 := Option.some.inj h
          subst h2
          refine ⟨rfl, fun v hv => ?_⟩
          obtain rfl := Option.some.inj hv
          exact hrep

theorem countP_filterMap_le {α β : Type} (f : α → Option β) (p : β → Bool) (q : α → Bool)
    (h : ∀ a b, f a = some b → p b = q a) :
    ∀ l : List α, (l.filterMap f).countP p ≤ l.countP q := by
  intro l
  induction l with
  | nil => simp
  | cons a t ih =>
    rw [List.countP_cons]
    cases hf : f a with
    | none =>
      rw [List.filterMap_cons, hf]
      exact le_trans ih (Nat.le_add_right _ _)
    | some b =>
      rw [List.filterMap_cons, hf, List.countP_cons, h a b hf]
      exact Nat.add_le_add_right ih _

theorem getLast?_cons_eq {α : Type} :
    ∀ (l : List α) (a : α),
      (a :: l).getLast? = match l.getLast? with
        | some x => some x
        | none => some a := by
  intro l
  induction l with
  | nil => intro a; rfl
  | cons b m ih =>
    intro a
    cases hm : (b :: m).getLast? with
    | none =>
      exfalso
      rw [ih b] at hm
      cases hmm : m.getLast? <;> rw [hmm] at hm <;> cases hm
    | some y =>
      rw [List.getLast?_cons_cons, hm]

theorem idTableStep_apply_none {acc : String → Option YVal} {r : YVal}
    (hid : idOf r = none) : idTableStep acc r = acc := by
  unfold idTableStep
  rw [hid]

theorem idTableStep_apply_some {acc : String → Option YVal} {r : YVal} {k' : String}
    (hid : idOf r = some k') (q : String) :
    idTableStep acc r q = if q == k' then some r else acc q := by
  unfold idTableStep
  rw [hid]

theorem buildIdTable_spec (k : String) :
    ∀ (rs : List YVal) (acc : String → Option YVal),
      (rs.foldl idTableStep acc) k
        = match (rs.filter (fun r => idOf r == some k)).getLast? with
          | some r => some r
          | none => acc k := by
  intro rs
  induction rs with
  | nil => intro acc; rfl
  | cons r t ih =>
    intro acc
    rw [List.foldl_cons, ih]
    cases hid : idOf r with
    | none =>
      have hp : (idOf r == some k) = false := by rw [hid]; rfl
      have hfc : List.filter (fun r => idOf r == some k) (r :: t)
          = List.filter (fun r => idOf r == some k) t := by
        simp [List.filter_cons, hp]
      rw [hfc, idTableStep_apply_none hid]
    | some k' =>
      by_cases hkk : k = k'
      · subst hkk
        have hp : (idOf r == some k) = true := by rw [hid]; simp
        have hfc : List.filter (fun r => idOf r == some k) (r :: t)
            = r :: List.filter (fun r => idOf r == some k) t := by
          simp [List.filter_cons, hp]
        have happ : idTableStep acc r k = some r := by
          rw [idTableStep_apply_some hid]
          simp
        rw [hfc, happ, getLast?_cons_eq]
        cases hl : (List.filter (fun r => idOf r == some k) t).getLast? <;> rfl
      · have hp : (idOf r == some k) = false := by
          rw [hid]
          simp only [beq_eq_false_iff_ne, ne_eq, Option.some.injEq]
          exact fun hE => hkk hE.symm
        have hfc : List.filter (fun r => idOf r == some k) (r :: t)
            = List.filter (fun r => idOf r == some k) t := by
          simp [List.filter_cons, hp]
        have happ : idTableStep acc r k = acc k := by
          rw [idTableStep_apply_some hid]
          simp [beq_eq_false_iff_ne.mpr hkk]
        rw [hfc, happ]

/-! ## Claims C7 and C9: the chain resolver -/

/-- Claim C7 (confirmed): the resolver emits exactly one record per
HelmRelease (the output lists are a `filterMap` / `filter` of the
HelmRelease list); a HelmRelease whose chartRef id resolves and whose
OCIRepository url id resolves gives one fully-resolved chain; an unknown
or absent url id degrades that record to a partial chain (Resource
absent); an unknown or absent chartRef id sends the HelmRelease to the
unmapped list.  All involved functions are total, so no case is an
error. -/
theorem claim_C7_chain_resolution (doc : List YVal) (hr : YVal)
    (hmem : hr ∈ helm_releases doc) :
    (analyze_kro_mappings doc).1 = (helm_releases doc).filterMap (chain_of doc) ∧
    (analyze_kro_mappings doc).2
      = (helm_releases doc).filter (fun r => (chain_of doc r).isNone) ∧
    (∀ v repo w res,
        parse_helm_to_oci (chart_ref_of hr) = some v →
        oci_by_id doc v = some repo →
        parse_oci_to_resource (url_of repo) = some w →
        resource_by_id doc w = some res →
        chain_of doc hr
          = some ⟨hr, repo, some res, some (extract_resource_reference_info res)⟩) ∧
    (∀ v repo,
        parse_helm_to_oci (chart_ref_of hr) = some v →
        oci_by_id doc v = some repo →
        (∀ w, parse_oci_to_resource (url_of repo) = some w →
            resource_by_id doc w = none) →
        chain_of doc hr = some ⟨hr, repo, none, none⟩) ∧
    ((parse_helm_to_oci (chart_ref_of hr) = none ∨
        (∀ v, parse_helm_to_oci (chart_ref_of hr) = some v → oci_by_id doc v = none)) →
      hr ∈ (analyze_kro_mappings doc).2) := by
  have hloop := analyzeLoop_eq doc (helm_releases doc)
  refine ⟨congrArg Prod.fst hloop, congrArg Prod.snd hloop, ?_, ?_, ?_⟩
  · intro v repo w res h1 h2 h3 h4
    simp [chain_of, h1, h2, h3, h4]
  · intro v repo h1 h2 hno
    cases hw : parse_oci_to_resource (url_of repo) with
    | none => simp [chain_of, h1, h2, hw]
    | some w => simp [chain_of, h1, h2, hw, hno w hw]
  · intro hcase
    have hnone : chain_of doc hr = none := by
      rcases hcase with hp | hu
      · simp [chain_of, hp]
      · cases hv : parse_helm_to_oci (chart_ref_of hr) with
        | none => simp [chain_of, hv]
        | some v => simp [chain_of, hv, hu v hv]
    show hr ∈ (analyzeLoop doc (helm_releases doc)).2
    rw [hloop]
    exact List.mem_filter.mpr ⟨hmem, by simp [hnone]⟩

/-- Witness for `claim_C7_chain_resolution` at the one-chain document. -/
theorem claim_C7_witness :
    hrFoo ∈ helm_releases docC7 ∧
    chain_of docC7 hrFoo
      = some ⟨hrFoo, ociFoo, some resBar,
          some (some ("collabora"), some ("helm-chart-foo"))⟩ := by
  have hmem : hrFoo ∈ helm_releases docC7 := by
    have he : helm_releases docC7 = [hrFoo] := rfl
    rw [he]
    exact List.mem_singleton.mpr rfl
  refine ⟨hmem, ?_⟩
  exact (claim_C7_chain_resolution docC7 hrFoo hmem).2.2.1
    ("fooOCIRepository") ociFoo ("barResource") resBar rfl rfl rfl rfl

/-- Claim C9 (confirmed): the id tables are last-one-wins (the lookup
returns the last resource in document order carrying the id); every chain
record built from a chartRef naming an id carries that last occurrence;
and each HelmRelease occurrence yields at most one chain record. -/
theorem claim_C9_last_one_wins (doc : List YVal) (k : String) :
    oci_by_id doc k
      = ((oci_repositories doc).filter (fun r => idOf r == some k)).getLast? ∧
    resource_by_id doc k
      = ((resource_definitions doc).filter (fun r => idOf r == some k)).getLast? ∧
    (∀ hr rec, chain_of doc hr = some rec →
        rec.hr = hr ∧
        (parse_helm_to_oci (chart_ref_of hr) = some k →
          some rec.oci
            = ((oci_repositories doc).filter (fun r => idOf r == some k)).getLast?)) ∧
    (∀ q : YVal → Bool,
        (analyze_kro_mappings doc).1.countP (fun rec => q rec.hr)
          ≤ (helm_releases doc).countP q) := by
  have hid2 : ∀ o : Option YVal,
      (match o with | some r => some r | none => (none : Option YVal)) = o := by
    intro o
    cases o <;> rfl
  have hoci : oci_by_id doc k
      = ((oci_repositories doc).filter (fun r => idOf r == some k)).getLast? := by
    rw [oci_by_id, buildIdTable, buildIdTable_spec k]
    exact hid2 _
  refine ⟨hoci, ?_, ?_, ?_⟩
  · rw [resource_by_id, buildIdTable, buildIdTable_spec k]
    exact hid2 _
  · intro hr rec hchain
    have hs := chain_of_spec hchain
    refine ⟨hs.1, fun hp => ?_⟩
    rw [← hs.2 k hp]
    exact hoci
  · intro q
    have h1 : (analyze_kro_mappings doc).1
        = (helm_releases doc).filterMap (chain_of doc) :=
      congrArg Prod.fst (analyzeLoop_eq doc (helm_releases doc))
    rw [h1]
    exact countP_filterMap_le (chain_of doc) _ q
      (fun a b hf => congrArg q (chain_of_spec hf).1) _

/-- Witness for `claim_C9_last_one_wins` at the duplicate-id document:
the table maps the duplicated id to the second OCIRepository. -/
theorem claim_C9_witness :
    oci_by_id docC9 ("dupOCIRepository") = some ociDup2 ∧
    some (ChainRec.mk hrDup ociDup2 none none).oci
      = ((oci_repositories docC9).filter
          (fun r => idOf r == some ("dupOCIRepository"))).getLast? := by
  have h := claim_C9_last_one_wins docC9 ("dupOCIRepository")
  refine ⟨h.1.trans (by rfl), ?_⟩
  exact (h.2.2.1 hrDup (ChainRec.mk hrDup ociDup2 none none) rfl).2 rfl

/-! ## Lemmas about the correlator loop -/

theorem correlateGo_no12 (img : DeployedImage) :
    ∀ (ms : List HelmMapping) (b : HelmMapping) (r : String),
      (∀ m ∈ ms, step12 img m = false) →
      correlateGo img (dcn_of img) (nai_of img) (some b, r) ms = (some b, r) := by
  intro ms
  induction ms with
  | nil => intro b r _; rfl
  | cons m rest ih =>
    intro b r h
    have h12 := h m (List.mem_cons_self m rest)
    rw [step12, Bool.or_eq_false_iff] at h12
    obtain ⟨hc1, hc2⟩ := h12
    simp only [correlateGo, hc1, hc2, Bool.false_eq_true, if_false,
      Option.isNone_some, Bool.and_false]
    exact ih b r (fun m' hm' => h m' (List.mem_cons_of_mem _ hm'))

theorem correlateGo_no12_none (img : DeployedImage) :
    ∀ (ms : List HelmMapping) (r0 : String),
      (∀ m ∈ ms, step12 img m = false) →
      correlateGo img (dcn_of img) (nai_of img) (none, r0) ms
        = match ms.find? (fun m => step3 img m || step4 img m) with
          | some m =>
            (some m,
              if step3 img m then reason_component (nai_of img) m.resource_reference_path
              else reason_pattern img.app_instance m.resource_resource_name)
          | none => (none, r0) := by
  intro ms
  induction ms with
  | nil => intro r0 _; rfl
  | cons m rest ih =>
    intro r0 h
    have h12 := h m (List.mem_cons_self m rest)
    rw [step12, Bool.or_eq_false_iff] at h12
    obtain ⟨hc1, hc2⟩ := h12
    have hrest : ∀ m' ∈ rest, step12 img m' = false :=
      fun m' hm' => h m' (List.mem_cons_of_mem _ hm')
    cases h3 : step3 img m with
    | true =>
      have h3c : cond3 (nai_of img) m.resource_reference_path = true := by
        rw [step3] at h3
        exact h3
      have hfind : List.find? (fun m => step3 img m || step4 img m) (m :: rest)
          = some m := List.find?_cons_of_pos _ (by rw [h3]; rfl)
      rw [hfind]
      simp only [correlateGo, hc1, hc2, Bool.false_eq_true, if_false, h3c,
        Option.isNone_none, Bool.and_true, if_true, Option.isNone_some,
        Bool.and_false]
      rw [correlateGo_no12 img rest _ _ hrest]
      simp [h3]
    | false =>
      cases h4 : step4 img m with
      | true =>
        have h3c : cond3 (nai_of img) m.resource_reference_path = false := by
          rw [step3] at h3
          exact h3
        have h4c : cond4 img.app_instance m.resource_resource_name = true := by
          rw [step4] at h4
          exact h4
        have hfind : List.find? (fun m => step3 img m || step4 img m) (m :: rest)
            = some m := List.find?_cons_of_pos _ (by rw [h3, h4]; rfl)
        rw [hfind]
        simp only [correlateGo, hc1, hc2, Bool.false_eq_true, if_false, h3c,
          Bool.false_and, Option.isNone_none, Bool.and_true, h4c, if_true]
        rw [correlateGo_no12 img rest _ _ hrest]
        simp [h3]
      | false =>
        have h3c : cond3 (nai_of img) m.resource_reference_path = false := by
          rw [step3] at h3
          exact h3
        have h4c : cond4 img.app_instance m.resource_resource_name = false := by
          rw [step4] at h4
          exact h4
        have hfind : List.find? (fun m => step3 img m || step4 img m) (m :: rest)
            = List.find? (fun m => step3 img m || step4 img m) rest :=
          List.find?_cons_of_neg _ (by simp [h3, h4])
        rw [hfind]
        simp only [correlateGo, hc1, hc2, Bool.false_eq_true, if_false, h3c,
          Bool.false_and, h4c, Option.isNone_none, Bool.and_true]
        exact ih r0 hrest

theorem correlateGo_find12 (img : DeployedImage) :
    ∀ (ms : List HelmMapping) (st : Option HelmMapping × String) (m₀ : HelmMapping),
      ms.find? (step12 img) = some m₀ →
      correlateGo img (dcn_of img) (nai_of img) st ms = (some m₀, reason12 img m₀) := by
  intro ms
  induction ms with
  | nil => intro st m₀ h; cases h
  | cons m rest ih =>
    intro st m₀ h
    by_cases h12p : step12 img m = true
    · rw [List.find?_cons_of_pos _ h12p] at h
      have hm : m = m₀ := Option.some.inj h
      subst hm
      rw [step12] at h12p
      by_cases hc1 : cond1 (dcn_of img) (rcn_of m) = true
      · simp only [correlateGo, hc1, if_true]
        rw [reason12]
        have heq : (dcn_of img == rcn_of m) = true := by
          rw [cond1] at hc1
          simp only [Bool.and_eq_true] at hc1
          exact hc1.2
        rw [if_pos heq]
      · have hc1f : cond1 (dcn_of img) (rcn_of m) = false :=
          Bool.eq_false_iff.mpr hc1
        rw [hc1f] at h12p
        simp only [Bool.false_or] at h12p
        simp only [correlateGo, hc1f, Bool.false_eq_true, if_false, h12p, if_true]
        rw [reason12]
        have hab : (!(dcn_of img == "")) = true ∧ (!(rcn_of m == "")) = true := by
          rw [cond2] at h12p
          simp only [Bool.and_eq_true] at h12p
          exact ⟨h12p.1.1, h12p.1.2⟩
        have heq : (dcn_of img == rcn_of m) = false := by
          cases heqc : (dcn_of img == rcn_of m) with
          | false => rfl
          | true =>
            exfalso
            apply hc1
            rw [cond1, hab.1, hab.2, heqc]
            rfl
        rw [heq]
        simp
    · have h12f : step12 img m = false := Bool.eq_false_iff.mpr h12p
      rw [List.find?_cons_of_neg _ h12p] at h
      rw [step12, Bool.or_eq_false_iff] at h12f
      obtain ⟨hc1, hc2⟩ := h12f
      simp only [correlateGo, hc1, hc2, Bool.false_eq_true, if_false]
      exact ih _ m₀ h

/-! ## Claims C1 and C5: correlator priority -/

/-- Claim C1 (amended): when no chain satisfies step 1 or step 2 for an
image, the image is matched with the FIRST CHAIN in list order satisfying
step 3 or step 4 — with the step-3 reason if that chain satisfies step 3,
else the step-4 reason.  Priority between steps 3 and 4 is per chain, not
global: a step-4-only chain earlier in the list beats a step-3-only chain
later in the list (see the counterexample), which refutes the unamended
claim.  A lower-priority step never overwrites an already-found match. -/
theorem claim_C1_amended (img : DeployedImage) (ms : List HelmMapping)
    (h : ∀ m ∈ ms, step12 img m = false) :
    correlate_image img ms
      = match ms.find? (fun m => step3 img m || step4 img m) with
        | some m =>
          (some m,
            if step3 img m then reason_component (nai_of img) m.resource_reference_path
            else reason_pattern img.app_instance m.resource_resource_name)
        | none => (none, ("No match found")) :=
  correlateGo_no12_none img ms ("No match found") h

/-- Claim C1 counterexample: for this image nothing satisfies step 1/2,
the second chain satisfies step 3 and the first only step 4 — yet the
reported reason is the step-4 reason, because the first chain in list
order wins among steps 3 and 4, contradicting the claim's global step
priority. -/
theorem claim_C1_counterexample :
    (∀ m ∈ [mapPattern, mapComponent], step12 imgKeycloak m = false) ∧
    step3 imgKeycloak mapComponent = true ∧
    step4 imgKeycloak mapPattern = true ∧
    correlate_image imgKeycloak [mapPattern, mapComponent]
      = (some mapPattern,
          ("Resource pattern match: keycloak-main matches helm-chart-main-x")) ∧
    (correlate_image imgKeycloak [mapPattern, mapComponent]).2
      ≠ ("App instance component match: keycloak-main in nubus") := by
  refine ⟨by decide, by decide, by decide, by decide, by decide⟩

/-- Witness for `claim_C1_amended`: with the step-3 chain first, the
step-3 reason is reported. -/
theorem claim_C1_witness :
    (∀ m ∈ [mapComponent, mapPattern], step12 imgKeycloak m = false) ∧
    correlate_image imgKeycloak [mapComponent, mapPattern]
      = (some mapComponent,
          ("App instance component match: keycloak-main in nubus")) :=
  ⟨by decide,
    (claim_C1_amended imgKeycloak [mapComponent, mapPattern] (by decide)).trans
      (by decide)⟩

/-- Claim C5 (amended): if some chain satisfies the chart-name guard with
equality or similarity (in particular whenever a step-1 chain exists), the
reported match is the FIRST such chain with its chart-name-based reason —
the direct reason when the names are equal, the similar reason otherwise —
and never the app-instance/component reason.  The unamended claim (the
reason is always the direct reason) fails when an earlier chain matches by
similarity; see the counterexample. -/
theorem claim_C5_amended (img : DeployedImage) (ms : List HelmMapping)
    (m₀ : HelmMapping) (h : ms.find? (step12 img) = some m₀) :
    correlate_image img ms = (some m₀, reason12 img m₀) ∧
    (∃ t, reason12 img m₀ = ("Direct chart name match: ") ++ t ∨
          reason12 img m₀ = ("Similar chart names: ") ++ t) := by
  refine ⟨correlateGo_find12 img ms _ m₀ h, ?_⟩
  rw [reason12]
  by_cases heq : (dcn_of img == rcn_of m₀) = true
  · exact ⟨dcn_of img, Or.inl (by rw [if_pos heq]; rfl)⟩
  · refine ⟨dcn_of img ++ (" ≈ ") ++ rcn_of m₀, Or.inr ?_⟩
    rw [if_neg heq]
    rfl

/-- Claim C5 counterexample: the image directly matches `mapDirect` and
component-matches `mapComp2`, but an earlier chain matches by name
similarity, so the reported reason is the similar-names reason, not the
direct one as the claim states. -/
theorem claim_C5_counterexample :
    step1 imgAbcd mapDirect = true ∧
    step3 imgAbcd mapComp2 = true ∧
    correlate_image imgAbcd [mapSimilar, mapComp2, mapDirect]
      = (some mapSimilar, ("Similar chart names: abcd ≈ abcde")) ∧
    (correlate_image imgAbcd [mapSimilar, mapComp2, mapDirect]).2
      ≠ ("Direct chart name match: abcd") := by
  refine ⟨by decide, by decide, by decide, by decide⟩

/-- Witness for `claim_C5_amended`: without a similar-names chain in the
way, the direct reason is reported even though a step-3 chain precedes. -/
theorem claim_C5_witness :
    ([mapComp2, mapDirect].find? (step12 imgAbcd) = some mapDirect) ∧
    correlate_image imgAbcd [mapComp2, mapDirect]
      = (some mapDirect, ("Direct chart name match: abcd")) ∧
    (∃ t, reason12 imgAbcd mapDirect = ("Direct chart name match: ") ++ t ∨
          reason12 imgAbcd mapDirect = ("Similar chart names: ") ++ t) := by
  have h := claim_C5_amended imgAbcd [mapComp2, mapDirect] mapDirect (by decide)
  exact ⟨by decide, h.1.trans (by decide), h.2⟩

/-! ## Claims C3 and C6: the patch step -/

theorem cleanGo_id :
    ∀ (fuel : Nat) (lines : List String),
      (∀ l ∈ lines, strContains l ("image-") = false) →
      cleanGo fuel lines = lines := by
  intro fuel
  induction fuel with
  | zero => intro lines _; rfl
  | succ n ih =>
    intro lines h
    cases lines with
    | nil => rfl
    | cons l rest =>
      have hl := h l (List.mem_cons_self l rest)
      simp only [cleanGo, hl, Bool.and_false, Bool.false_and, Bool.false_eq_true, if_false]
      rw [ih rest (fun l' hl' => h l' (List.mem_cons_of_mem _ hl'))]

/-- Claim C3 (amended): removal is keyed on the block's START LINE
containing both `- name:` and the substring `image-` (in addition to a
`type: ociImage` within the 9-line lookahead) — not on the declared type
alone.  In particular, on a document none of whose lines contain
`image-`, the removal pass deletes nothing, whatever ociImage-typed
blocks it contains; such blocks survive into the patched output (see the
counterexample). -/
theorem claim_C3_amended (lines : List String)
    (h : ∀ l ∈ lines, strContains l ("image-") = false) :
    removeOciImageBlocks lines = lines :=
  cleanGo_id lines.length lines h

/-- Claim C3 counterexample: a resource block named `foo` with declared
type `ociImage` survives the removal pass unchanged, refuting the claim
that no ociImage-typed block, whatever its name, survives. -/
theorem claim_C3_counterexample :
    removeOciImageBlocks c3lines = c3lines ∧
    ("      - name: foo") ∈ c3lines ∧
    ("        type: ociImage") ∈ c3lines := by
  refine ⟨by decide, by decide, by decide⟩

/-- Witness for `claim_C3_amended` at a concrete document containing an
ociImage-typed block not named `image-…`. -/
theorem claim_C3_witness :
    (∀ l ∈ c3wit, strContains l ("image-") = false) ∧
    removeOciImageBlocks c3wit = c3wit :=
  ⟨by decide, claim_C3_amended c3wit (by decide)⟩

/-- Claim C6 (amended): re-applying the patch with the same input yields
the same content whenever re-cleaning the patched text recovers the
cleaned original — that is, whenever the removal pass deletes exactly the
newly inserted blocks.  (That condition holds for ordinary manifests, see
the witness, but the unamended universal claim fails on documents where
stray `type: ociImage` text within the bounded lookahead makes the
cleaner delete extra lines; see the counterexample.) -/
theorem claim_C6_amended (lines charts : List String)
    (imagesByChart : List (String × List ImageRes))
    (h : removeOciImageBlocks (update_component_constructor_lines lines charts imagesByChart)
        = removeOciImageBlocks lines) :
    update_component_constructor_lines
        (update_component_constructor_lines lines charts imagesByChart) charts imagesByChart
      = update_component_constructor_lines lines charts imagesByChart := by
  show applyInserts
      (collectInserts
        (removeOciImageBlocks (update_component_constructor_lines lines charts imagesByChart))
        imagesByChart charts [])
      (removeOciImageBlocks (update_component_constructor_lines lines charts imagesByChart))
    = update_component_constructor_lines lines charts imagesByChart
  rw [h]
  rfl

/-- Claim C6 counterexample: on this structurally valid manifest the
second application deletes the pre-existing `- name: image-a` line (its
lookahead now reads a `type: ociImage` inside an unrelated block scalar),
so the patched content is not a fixed point. -/
theorem claim_C6_counterexample :
    update_component_constructor_lines
        (update_component_constructor_lines c6lines c6charts c6imgs) c6charts c6imgs
      ≠ update_component_constructor_lines c6lines c6charts c6imgs := by
  decide

/-- Witness for `claim_C6_amended` at an ordinary manifest: the cleaner
removes exactly the inserted block, and the patch is idempotent. -/
theorem claim_C6_witness :
    (removeOciImageBlocks (update_component_constructor_lines c6wit c6charts c6imgs)
        = removeOciImageBlocks c6wit) ∧
    update_component_constructor_lines
        (update_component_constructor_lines c6wit c6charts c6imgs) c6charts c6imgs
      = update_component_constructor_lines c6wit c6charts c6imgs :=
  ⟨by decide, claim_C6_amended c6wit c6charts c6imgs (by decide)⟩
